import Mathlib

/-!
Shallow embedding of `src/app/models/decision_table.py` (class `DecisionTable`).

Strings are modelled as `List Char`.  Python cell values (bool / int / str) are
modelled by the inductive `DT.Value`.  Fallible Python code (raising exceptions)
is modelled with `Except`; the mutation of the `DecisionDataHolder` performed by
`evaluate` is modelled by returning the final container state alongside the
result, so that the state at the moment an exception propagates is observable.
-/

namespace DT

/-- A Python string, modelled as its list of characters. -/
abbrev Str := List Char

/-- A Python value as it appears in cells and in the predictor container:
a boolean, an integer, or a string. -/
inductive Value where
  | bool (b : Bool)
  | int (n : Int)
  | str (s : Str)
deriving DecidableEq, Repr

/-- The five comparison functions of `DecisionTable._OPS_MAP`
(`operator.gt/lt/ge/le/eq`). -/
inductive OpKind where
  | gt
  | lt
  | ge
  | le
  | eq
deriving DecidableEq, Repr

/-- `DecisionTable._OPS_MAP`: operator token to comparison function
(source lines 27-33). -/
def OPS_MAP : List (Str × OpKind) :=
  [(['>'], .gt), (['<'], .lt), (['>', '='], .ge), (['<', '='], .le), (['='], .eq)]

/-- First-match lookup in a token/function pair list. -/
def lookupPairs (op : Str) : List (Str × OpKind) → Option OpKind
  | [] => none
  | (tok, f) :: rest => if tok = op then some f else lookupPairs op rest

/-- Dictionary lookup in `_OPS_MAP` (token equality, as in
`any(operator == key for key in self._OPS_MAP.keys())` and
`self._OPS_MAP[operator]`). -/
def opsLookup (op : Str) : Option OpKind := lookupPairs op OPS_MAP

/-- A character of the regex class `[><=]` (source line 57). -/
def isOpChar (c : Char) : Bool := c = '>' || c = '<' || c = '='

/-- `re.search(r"[><=]{1,2}", value)`: the leftmost run of one or two
characters from `[><=]` (greedy, so two characters when the next character is
also in the class), or `none` when no such character occurs. -/
def findOpRun : Str → Option Str
  | [] => none
  | c :: rest =>
      if isOpChar c then
        some (match rest with
              | c2 :: _ => if isOpChar c2 then [c, c2] else [c]
              | [] => [c])
      else findOpRun rest

/-- List-prefix test used to locate pattern occurrences for `re.sub`. -/
def isPrefixL : Str → Str → Bool
  | [], _ => true
  | _ :: _, [] => false
  | a :: as, b :: bs => a = b && isPrefixL as bs

/-- Fuel-indexed worker for `replaceAll`; the fuel is an upper bound on the
length of the remaining string, so the function is structurally recursive and
computable by the kernel. -/
def replaceAllAux : Nat → Str → Str → Str
  | 0, _, _ => []
  | _, _, [] => []
  | Nat.succ n, pat, c :: rest =>
      if pat ≠ [] ∧ isPrefixL pat (c :: rest) then
        replaceAllAux n pat ((c :: rest).drop pat.length)
      else
        c :: replaceAllAux n pat rest

/-- `re.sub(operator, "", value)` for a literal pattern (the five operator
tokens contain no regex metacharacters): every leftmost non-overlapping
occurrence of `pat` is removed, scanning left to right and continuing after
each removed occurrence (source line 74).  The `pat ≠ []` guard is only there
to keep the recursion well-founded; the source always passes a non-empty
operator token. -/
def replaceAll (pat s : Str) : Str := replaceAllAux s.length pat s

/-- `str.lower()` (ASCII case folding, which is all the source compares). -/
def lowerStr (s : Str) : Str := s.map Char.toLower

/-- Python `str.isdigit` on one ASCII character: a decimal digit `0`-`9`. -/
def isDigitC (c : Char) : Bool := decide (48 ≤ c.toNat ∧ c.toNat ≤ 57)

/-- Python `str.isdigit`: non-empty and all digits. -/
def isDigits (s : Str) : Bool := !(s = [] : Bool) && s.all isDigitC

/-- The guard of source line 78:
`rem_value.isdigit() or (rem_value.startswith('-') and rem_value[1:].isdigit())`. -/
def isIntGuard (s : Str) : Bool :=
  isDigits s || (isPrefixL ['-'] s && isDigits (s.drop 1))

/-- Base-10 digit accumulation for `int(...)` on an all-digit string. -/
def digitsToNat (s : Str) : Nat := s.foldl (fun acc c => acc * 10 + (c.toNat - 48)) 0

/-- Python `int(rem_value)` under the guard of line 78: an optional leading
minus sign followed by decimal digits, sign applied. -/
def strToInt (s : Str) : Int :=
  if isPrefixL ['-'] s then -(digitsToNat (s.drop 1) : Int) else (digitsToNat s : Int)

/-- The errors `__parse_cell_value` can raise (both `ValueError` in Python,
distinguished here by their messages). -/
inductive ParseErr where
  | unsupportedOperator (op : Str)
  | unknownValueType (rem : Str)
deriving DecidableEq, Repr

/-- `DecisionTable.__parse_cell_value` (source lines 49-83): find the leftmost
operator-like run; with no run the raw string is returned verbatim; an
unrecognised run raises; otherwise the operator pattern is removed from the
raw string by `re.sub` and the remainder is classified as a boolean
(`strtobool` on the tokens true/false, case-insensitively), an integer, or an
error. -/
def parse_cell_value (value : Str) : Except ParseErr (Option Str × Value) :=
  match findOpRun value with
  | none => .ok (none, .str value)
  | some operator =>
      if (opsLookup operator).isSome then
        let rem_value := replaceAll operator value
        if lowerStr rem_value = ('t' :: ['r', 'u', 'e']) ∨
            lowerStr rem_value = ('f' :: ['a', 'l', 's', 'e']) then
          .ok (some operator, .bool (decide (lowerStr rem_value = ('t' :: ['r', 'u', 'e']))))
        else if isIntGuard rem_value then
          .ok (some operator, .int (strToInt rem_value))
        else
          .error (.unknownValueType rem_value)
      else
        .error (.unsupportedOperator operator)

instance {ε α : Type} [DecidableEq ε] [DecidableEq α] : DecidableEq (Except ε α) :=
  fun a b =>
    match a, b with
    | .ok x, .ok y => decidable_of_iff (x = y) (by constructor <;> (intro h; cases h; rfl))
    | .error x, .error y => decidable_of_iff (x = y) (by constructor <;> (intro h; cases h; rfl))
    | .ok _, .error _ => isFalse (by intro h; cases h)
    | .error _, .ok _ => isFalse (by intro h; cases h)

example : parse_cell_value ('g' :: ['o', 'l', 'd']) = .ok (none, .str ('g' :: ['o', 'l', 'd'])) := by decide

example : parse_cell_value ('>' :: ['=', '-', '5']) = .ok (some ['>', '='], .int (-5)) := by decide

example : parse_cell_value ('=' :: ['T', 'r', 'u', 'e']) = .ok (some ['='], .bool true) := by decide

example : parse_cell_value ('>' :: ['a', 'b', 'c']) = .error (.unknownValueType ('a' :: ['b', 'c'])) := by decide

example : parse_cell_value ('=' :: ['=', '5']) = .error (.unsupportedOperator ('=' :: ['='])) := by decide

example : parse_cell_value ('>' :: ['1', '>']) = .ok (some ['>'], .int 1) := by decide

/-- A column name / predictor name. -/
abbrev Key := Str

/-- A parsed cell: the `(operator, value)` tuple produced by
`__parse_cell_value`. -/
abbrev Condition := Option Str × Value

/-- One parsed decision row: a dictionary from column name to parsed cell,
modelled as an insertion-ordered association list with distinct keys. -/
abbrev Row := List (Key × Condition)

/-- One raw CSV row: a dictionary from header name to the raw cell string. -/
abbrev RawRow := List (Key × Str)

/-- Dictionary lookup in a decision row (`decision_dict[ddh_key]`,
`status_column in decision_dict.keys()`). -/
def lookupRow (k : Key) : Row → Option Condition
  | [] => none
  | (k', c) :: rest => if k' = k then some c else lookupRow k rest

/-- The errors raised while building the matrix: `MissingDataError` from
`__parse_csv_data`, or a cell-parsing `ValueError`. -/
inductive BuildErr where
  | missingData
  | parse (e : ParseErr)
deriving DecidableEq, Repr

/-- Parse every cell of one raw row, in dictionary order, as the dict
comprehension of source lines 92-95 does; the first cell error propagates. -/
def parseRawRow : RawRow → Except ParseErr Row
  | [] => .ok []
  | (k, v) :: rest =>
      match parse_cell_value v with
      | .error e => .error e
      | .ok c =>
          match parseRawRow rest with
          | .error e => .error e
          | .ok row => .ok ((k, c) :: row)

/-- The row loop of `__parse_csv_data`: parsed rows are appended in input
order. -/
def parseRows : List RawRow → Except BuildErr (List Row)
  | [] => .ok []
  | r :: rest =>
      match parseRawRow r with
      | .error e => .error (.parse e)
      | .ok row =>
          match parseRows rest with
          | .error e => .error e
          | .ok rows => .ok (row :: rows)

/-- `DecisionTable.__parse_csv_data` (source lines 85-97): requires
`csv_data_loaded`, i.e. `len(self._csv_data) != 0`, and otherwise raises
`MissingDataError`; an empty supplied row list is indistinguishable from
never-loaded data. -/
def parse_csv_data (csv_data : List RawRow) : Except BuildErr (List Row) :=
  if csv_data ≠ [] then parseRows csv_data else .error .missingData

/-- `DecisionTable.load_csv_data` (source lines 99-105): store the raw rows
and immediately parse them into the decision matrix. -/
def load_csv_data (csv_data : List RawRow) : Except BuildErr (List Row) :=
  parse_csv_data csv_data

/-!
The `DecisionDataHolder` class lives in `app/models/decision_data_holder.py`,
which is not part of the sources under verification.  Modelled from the spec:
the predictor container is a mutable insertion-ordered mapping from name to
value, consumed by the core only through enumerate-keys (insertion order),
read-value-by-key, write-value-by-key and delete-value-by-key, with Python
`dict` semantics (a write to an existing key updates it in place, a write to
a new key appends it at the end).
-/

/-- Modelled from the spec: the predictor container (`DecisionDataHolder`),
an insertion-ordered mapping from predictor name to value. -/
abbrev DDH := List (Key × Value)

/-- Modelled from the spec: read-value-by-key (`ddh.data[key]`). -/
def lookupD (k : Key) : DDH → Option Value
  | [] => none
  | (k', v) :: rest => if k' = k then some v else lookupD k rest

/-- Modelled from the spec: enumerate-keys in insertion order
(`ddh.data.keys()`). -/
def keysD (d : DDH) : List Key := d.map Prod.fst

/-- Modelled from the spec: key membership (`key in ddh.data.keys()`). -/
def containsKey (k : Key) : DDH → Bool
  | [] => false
  | (k', _) :: rest => k' = k || containsKey k rest

/-- Modelled from the spec: delete-value-by-key (`del ddh[key]`); removes the
entry with the given key. -/
def eraseKey (k : Key) : DDH → DDH
  | [] => []
  | (k', v) :: rest => if k' = k then eraseKey k rest else (k', v) :: eraseKey k rest

/-- Modelled from the spec: write-value-by-key (`ddh[key] = v`); updates an
existing entry in place, otherwise appends the pair at the end. -/
def setKey (k : Key) (v : Value) : DDH → DDH
  | [] => [(k, v)]
  | (k', v') :: rest => if k' = k then (k, v) :: rest else (k', v') :: setKey k v rest

/-- The `status` column name (source line 168). -/
def status_column : Key := ['s', 't', 'a', 't', 'u', 's']

/-- The errors `evaluate` can raise: `MissingDataError` (matrix never built),
`MissingColumnError` (a row lacks `status`), the two `ValueError`s of the
inner loop (unknown predictor column; operator not specified), a `KeyError`
on `_OPS_MAP` for an operator token outside the map (impossible for
parser-built rows), and the `TypeError` Python raises when an ordered
comparison mixes a string with a number. -/
inductive EvalErr where
  | missingData
  | missingColumn (row : Row)
  | unknownColumn (k : Key)
  | unspecifiedOperator (row : Row) (k : Key) (v : Value)
  | opsKeyError (op : Str)
  | typeError
deriving DecidableEq, Repr

/-- Python numeric view of a value: booleans are the integers 0 and 1 for
comparison purposes (`True == 1`, `True > 0`, ...); strings have none. -/
def valToNum : Value → Option Int
  | .bool b => some (if b then 1 else 0)
  | .int n => some n
  | .str _ => none

/-- Python `==` on the modelled values: numeric cross-type equality between
booleans and integers, string equality between strings, `False` across
string/non-string. -/
def pyEq (a b : Value) : Bool :=
  match a, b with
  | .str x, .str y => decide (x = y)
  | .str _, .bool _ => false
  | .str _, .int _ => false
  | .bool _, .str _ => false
  | .int _, .str _ => false
  | x, y =>
      match valToNum x, valToNum y with
      | some m, some n => decide (m = n)
      | _, _ => false

/-- Lexicographic `<` on Python strings (by code point). -/
def strLtB : Str → Str → Bool
  | [], [] => false
  | [], _ :: _ => true
  | _ :: _, [] => false
  | a :: as, b :: bs => if a = b then strLtB as bs else decide (a < b)

/-- Python `<` on the modelled values: numeric when both sides have a numeric
view, lexicographic between strings, and a `TypeError` when a string meets a
number. -/
def pyLt (a b : Value) : Except EvalErr Bool :=
  match valToNum a, valToNum b with
  | some m, some n => .ok (decide (m < n))
  | _, _ =>
      match a, b with
      | .str x, .str y => .ok (strLtB x y)
      | _, _ => .error .typeError

/-- `op_func(lhs, rhs)`: apply one of the `operator` module functions of
`_OPS_MAP`.  On the totally ordered Python types involved, `a > b` is
`b < a`, `a <= b` is `not (b < a)` and `a >= b` is `not (a < b)`, with the
same `TypeError` cases. -/
def applyOp (op : OpKind) (a b : Value) : Except EvalErr Bool :=
  match op with
  | .eq => .ok (pyEq a b)
  | .lt => pyLt a b
  | .gt => pyLt b a
  | .le => (pyLt b a).map (fun r => !r)
  | .ge => (pyLt a b).map (fun r => !r)

/-- The inner loop of `evaluate` (source lines 177-190) over the predictor
keys of one row: look up the same-named condition (`KeyError` becomes the
unknown-column `ValueError`), reject a falsy operator (`None` or the empty
token), fetch the comparison function from `_OPS_MAP`, and compare; a `False`
comparison breaks out with no match, and only a fully traversed key list
reports a match. -/
def evalRow (row : Row) (d : DDH) : List Key → Except EvalErr Bool
  | [] => .ok true
  | k :: ks =>
      match lookupRow k row with
      | none => .error (.unknownColumn k)
      | some (op?, value) =>
          match op? with
          | none => .error (.unspecifiedOperator row k value)
          | some [] => .error (.unspecifiedOperator row k value)
          | some (c :: cs) =>
              match opsLookup (c :: cs) with
              | none => .error (.opsKeyError (c :: cs))
              | some opk =>
                  match applyOp opk ((lookupD k d).getD (.str [])) value with
                  | .error e => .error e
                  | .ok false => .ok false
                  | .ok true => evalRow row d ks

/-- The row loop of `evaluate` (source lines 173-197): each row must contain
`status`; a row whose predictors all match has its `status` value written
into the container and stops the evaluation with `True`; an exhausted table
yields `False`.  The second component is the container state at exit, also
when an error propagates. -/
def evalRows (d : DDH) : List Row → Except EvalErr Bool × DDH
  | [] => (.ok false, d)
  | row :: rest =>
      match lookupRow status_column row with
      | none => (.error (.missingColumn row), d)
      | some statusCond =>
          match evalRow row d (keysD d) with
          | .error e => (.error e, d)
          | .ok true => (.ok true, setKey status_column statusCond.2 d)
          | .ok false => evalRows d rest

/-- The deletion of a stale `status` entry (source lines 168-170):
`if status_column in ddh.data.keys(): del ddh[status_column]`. -/
def clearStatus (ddh : DDH) : DDH :=
  if containsKey status_column ddh then eraseKey status_column ddh else ddh

/-- `DecisionTable.evaluate` (source lines 148-197): require a built
(non-empty) matrix, delete any pre-existing `status` entry from the predictor
container, then scan the rows in table order.  Returns the result together
with the final container state. -/
def evaluate (matrix : List Row) (ddh : DDH) : Except EvalErr Bool × DDH :=
  if matrix = [] then (.error .missingData, ddh)
  else evalRows (clearStatus ddh) matrix

/-! Concrete fixtures used by counterexamples and witnesses. -/

/-- The column name `age`. -/
def ageKey : Key := ['a', 'g', 'e']

/-- The column name `country`. -/
def countryKey : Key := ['c', 'o', 'u', 'n', 't', 'r', 'y']

/-- A predictor container holding `age = 20`. -/
def ddhAge20 : DDH := [(ageKey, .int 20)]

/-- A row with the single condition `age > 100` and no `status` entry. -/
def rowNoStatus : Row := [(ageKey, (some ['>'], .int 100))]

/-- A row with condition `age >= 18` and status `a1`. -/
def rowMatch1 : Row := [(ageKey, (some ['>', '='], .int 18)), (status_column, (none, .str ['a', '1']))]

/-- A row with condition `age > 10` and status `a2`. -/
def rowMatch2 : Row := [(ageKey, (some ['>'], .int 10)), (status_column, (none, .str ['a', '2']))]

/-- A row with condition `age > 100` (not matched by `age = 20`) and status
`no`. -/
def rowNoMatch : Row := [(ageKey, (some ['>'], .int 100)), (status_column, (none, .str ['n', 'o']))]

/-- A predictor container holding `age = 20` and `country = UK`. -/
def ddhAgeCountry : DDH := [(ageKey, .int 20), (countryKey, .str ['U', 'K'])]

/-- A predictor container holding `age = 20` and a stale `status` entry left
over from an earlier evaluation. -/
def ddhAgeStale : DDH := [(ageKey, .int 20), (status_column, .str ['o', 'l', 'd'])]

example : evaluate [rowMatch1, rowMatch2] ddhAge20 =
    (.ok true, [(ageKey, .int 20), (status_column, .str ['a', '1'])]) := by decide

example : evaluate [rowNoMatch] ddhAge20 = (.ok false, ddhAge20) := by decide

example : evaluate [rowNoStatus, rowMatch1] ddhAge20 =
    (.error (.missingColumn rowNoStatus), ddhAge20) := by decide

/-! Dictionary lemmas about the predictor-container operations. -/

/-- Deleting a key removes it from lookup. -/
theorem lookupD_eraseKey_self (k : Key) (d : DDH) : lookupD k (eraseKey k d) = none := by
  induction d with
  | nil => rfl
  | cons p rest ih =>
      obtain ⟨k', v⟩ := p
      by_cases h : k' = k
      · simp [eraseKey, h, ih]
      · simp [eraseKey, lookupD, h, ih]

/-- Deleting one key leaves every other key's value unchanged. -/
theorem lookupD_eraseKey_ne (k k' : Key) (d : DDH) (h : k ≠ k') :
    lookupD k (eraseKey k' d) = lookupD k d := by
  induction d with
  | nil => rfl
  | cons p rest ih =>
      obtain ⟨k₀, v⟩ := p
      by_cases h0 : k₀ = k'
      · simp [eraseKey, lookupD, h0, Ne.symm h, ih]
      · simp [eraseKey, lookupD, h0, ih]

/-- Writing one key leaves every other key's value unchanged. -/
theorem lookupD_setKey_ne (k k' : Key) (v : Value) (d : DDH) (h : k ≠ k') :
    lookupD k (setKey k' v d) = lookupD k d := by
  induction d with
  | nil => simp [setKey, lookupD, Ne.symm h]
  | cons p rest ih =>
      obtain ⟨k₀, v₀⟩ := p
      by_cases h0 : k₀ = k'
      · have hne0 : ¬ k₀ = k := by rw [h0]; exact Ne.symm h
        simp [setKey, lookupD, h0, Ne.symm h, hne0]
      · simp [setKey, lookupD, h0, ih]

/-- A key that is not contained has no value. -/
theorem lookupD_eq_none_of_not_contains (k : Key) (d : DDH) (h : containsKey k d = false) :
    lookupD k d = none := by
  induction d with
  | nil => rfl
  | cons p rest ih =>
      obtain ⟨k', v⟩ := p
      simp only [containsKey, Bool.or_eq_false_iff] at h
      have h1 : ¬ k' = k := by
        intro hh
        simp [hh] at h
      exact (if_neg h1).trans (ih h.2)

/-- After the stale-status deletion the container never holds `status`. -/
theorem lookupD_clearStatus (d : DDH) : lookupD status_column (clearStatus d) = none := by
  unfold clearStatus
  by_cases h : containsKey status_column d = true
  · simp [h, lookupD_eraseKey_self]
  · simp only [Bool.not_eq_true] at h
    simp [h, lookupD_eq_none_of_not_contains _ _ h]

/-- The stale-status deletion leaves every other key's value unchanged. -/
theorem lookupD_clearStatus_ne (k : Key) (d : DDH) (h : k ≠ status_column) :
    lookupD k (clearStatus d) = lookupD k d := by
  unfold clearStatus
  by_cases hc : containsKey status_column d
  · simp [hc, lookupD_eraseKey_ne _ _ _ h]
  · simp [hc]

/-! State lemmas about the row loop. -/

/-- A no-match scan leaves the container untouched. -/
theorem evalRows_ok_false (rows : List Row) : ∀ d d' : DDH,
    evalRows d rows = (.ok false, d') → d' = d := by
  induction rows with
  | nil =>
      intro d d' h
      simp only [evalRows, Prod.mk.injEq] at h
      exact h.2.symm
  | cons row rest ih =>
      intro d d' h
      simp only [evalRows] at h
      cases hs : lookupRow status_column row with
      | none => rw [hs] at h; simp at h
      | some sc =>
          rw [hs] at h
          cases he : evalRow row d (keysD d) with
          | error e => rw [he] at h; simp at h
          | ok b =>
              rw [he] at h
              cases b
              · exact ih d d' h
              · simp at h

/-- A scan that raises leaves the container as it was when the scan started. -/
theorem evalRows_error (rows : List Row) : ∀ (d d' : DDH) (e : EvalErr),
    evalRows d rows = (.error e, d') → d' = d := by
  induction rows with
  | nil => intro d d' e h; simp [evalRows] at h
  | cons row rest ih =>
      intro d d' e h
      simp only [evalRows] at h
      cases hs : lookupRow status_column row with
      | none =>
          rw [hs] at h
          simp only [Prod.mk.injEq] at h
          exact h.2.symm
      | some sc =>
          rw [hs] at h
          cases he : evalRow row d (keysD d) with
          | error e' =>
              rw [he] at h
              simp only [Prod.mk.injEq] at h
              exact h.2.symm
          | ok b =>
              rw [he] at h
              cases b
              · exact ih d d' e h
              · simp at h

/-- The row loop can only touch the `status` key of the container. -/
theorem lookupD_evalRows_ne (rows : List Row) : ∀ (d : DDH) (k : Key), k ≠ status_column →
    lookupD k (evalRows d rows).2 = lookupD k d := by
  induction rows with
  | nil => intro d k _; rfl
  | cons row rest ih =>
      intro d k hk
      simp only [evalRows]
      cases hs : lookupRow status_column row with
      | none => rfl
      | some sc =>
          cases he : evalRow row d (keysD d) with
          | error e => rfl
          | ok b =>
              cases b
              · exact ih d k hk
              · exact lookupD_setKey_ne _ _ _ _ hk

/-- Rows that contain `status` and scan to a clean mismatch are skipped: the
row loop continues behind them with the same container state. -/
theorem evalRows_skip (d : DDH) (p rows : List Row)
    (hp : ∀ row ∈ p, (lookupRow status_column row).isSome = true ∧
      evalRow row d (keysD d) = .ok false) :
    evalRows d (p ++ rows) = evalRows d rows := by
  induction p with
  | nil => rfl
  | cons row p' ih =>
      obtain ⟨hsome, hfalse⟩ := hp row (by simp)
      obtain ⟨sc, hsc⟩ := Option.isSome_iff_exists.mp hsome
      have step : evalRows d ((row :: p') ++ rows) = evalRows d (p' ++ rows) := by
        show evalRows d (row :: (p' ++ rows)) = evalRows d (p' ++ rows)
        simp only [evalRows, hsc, hfalse]
      rw [step]
      exact ih (fun r hr => hp r (by simp [hr]))

/-! Lemmas about the cell value parser. -/

/-- The only tokens accepted by the `_OPS_MAP` membership test, with the
comparison function each one maps to. -/
theorem opsLookup_cases (op : Str) (k : OpKind) (h : opsLookup op = some k) :
    op = ['>'] ∧ k = .gt ∨ op = ['<'] ∧ k = .lt ∨ op = ['>', '='] ∧ k = .ge ∨
      op = ['<', '='] ∧ k = .le ∨ op = ['='] ∧ k = .eq := by
  simp only [opsLookup, OPS_MAP, lookupPairs] at h
  split_ifs at h with h1 h2 h3 h4 h5
  · exact Or.inl ⟨h1.symm, (Option.some.inj h).symm⟩
  · exact Or.inr (Or.inl ⟨h2.symm, (Option.some.inj h).symm⟩)
  · exact Or.inr (Or.inr (Or.inl ⟨h3.symm, (Option.some.inj h).symm⟩))
  · exact Or.inr (Or.inr (Or.inr (Or.inl ⟨h4.symm, (Option.some.inj h).symm⟩)))
  · exact Or.inr (Or.inr (Or.inr (Or.inr ⟨h5.symm, (Option.some.inj h).symm⟩)))

/-- A decimal digit is none of the characters the parser treats specially. -/
theorem isDigitC_ne_special (c : Char) (h : isDigitC c = true) :
    c ≠ '>' ∧ c ≠ '<' ∧ c ≠ '=' ∧ c ≠ '-' ∧ c ≠ 't' ∧ c ≠ 'f' := by
  refine ⟨?_, ?_, ?_, ?_, ?_, ?_⟩ <;> (rintro rfl; revert h; decide)

/-- A character different from all three comparator characters is not an
operator character. -/
theorem isOpChar_eq_false (c : Char) (h1 : c ≠ '>') (h2 : c ≠ '<') (h3 : c ≠ '=') :
    isOpChar c = false := by
  simp [isOpChar, h1, h2, h3]

/-- Lowercasing fixes decimal digits. -/
theorem toLower_of_isDigitC (c : Char) (h : isDigitC c = true) : Char.toLower c = c := by
  have h' : 48 ≤ c.toNat ∧ c.toNat ≤ 57 := by simpa [isDigitC] using h
  have h'' : ¬(c.toNat ≥ 65 ∧ c.toNat ≤ 90) := by omega
  unfold Char.toLower
  rw [if_neg h'']

/-- The leftmost operator run is greedy: two adjacent comparator characters
match together. -/
theorem findOpRun_pair (c₁ c₂ : Char) (s : Str) (h1 : isOpChar c₁ = true)
    (h2 : isOpChar c₂ = true) : findOpRun (c₁ :: c₂ :: s) = some [c₁, c₂] := by
  simp [findOpRun, h1, h2]

/-- A comparator character followed by a non-comparator character matches
alone. -/
theorem findOpRun_single_cons (c x : Char) (xs : Str) (h1 : isOpChar c = true)
    (h2 : isOpChar x = false) : findOpRun (c :: x :: xs) = some [c] := by
  simp [findOpRun, h1, h2]

/-- Any list is a prefix of itself extended. -/
theorem isPrefixL_append (a b : Str) : isPrefixL a (a ++ b) = true := by
  induction a with
  | nil => rfl
  | cons c cs ih => simp [isPrefixL, ih]

/-- `replaceAllAux` on the empty string, any fuel. -/
theorem replaceAllAux_nil_arg (n : Nat) (pat : Str) : replaceAllAux n pat [] = [] := by
  cases n <;> rfl

/-- A string containing no copy of the pattern head is left unchanged by the
substitution. -/
theorem replaceAllAux_no_head (c : Char) (cs : Str) :
    ∀ (n : Nat) (s : Str), s.length ≤ n → (∀ x ∈ s, x ≠ c) →
      replaceAllAux n (c :: cs) s = s := by
  intro n
  induction n with
  | zero =>
      intro s hl _
      have hnil : s = [] := List.eq_nil_of_length_eq_zero (Nat.le_zero.mp hl)
      subst hnil
      rfl
  | succ n ih =>
      intro s hl hs
      cases s with
      | nil => exact replaceAllAux_nil_arg _ _
      | cons x xs =>
          have hx : x ≠ c := hs x (by simp)
          have hcond : ¬((c :: cs ≠ []) ∧ isPrefixL (c :: cs) (x :: xs) = true) := by
            rintro ⟨-, hpre⟩
            simp only [isPrefixL, Bool.and_eq_true, decide_eq_true_eq] at hpre
            exact hx hpre.1.symm
          have hl' : xs.length ≤ n := by
            simp only [List.length_cons] at hl
            omega
          rw [replaceAllAux, if_neg hcond, ih xs hl' (fun y hy => hs y (by simp [hy]))]

/-- Removing a non-empty pattern from the string that is exactly the pattern
followed by pattern-head-free text yields that text. -/
theorem replaceAll_cancel (c : Char) (cs s : Str) (hs : ∀ x ∈ s, x ≠ c) :
    replaceAll (c :: cs) ((c :: cs) ++ s) = s := by
  have hcons : (c :: cs) ++ s = c :: (cs ++ s) := rfl
  rw [replaceAll, hcons, List.length_cons, replaceAllAux, if_pos]
  · have hd : (c :: (cs ++ s)).drop (c :: cs).length = s := by
      have h0 := List.drop_left (c :: cs) s
      simp only [List.cons_append] at h0
      exact h0
    rw [hd]
    exact replaceAllAux_no_head c cs _ s (by simp) hs
  · refine ⟨by simp, ?_⟩
    rw [← hcons]
    exact isPrefixL_append (c :: cs) s

/-- For a one-character pattern, the substitution is exactly a filter: every
occurrence of the character is removed, everything else stays. -/
theorem replaceAllAux_single (c : Char) :
    ∀ (n : Nat) (s : Str), s.length ≤ n →
      replaceAllAux n [c] s = s.filter (fun x => !(decide (x = c))) := by
  intro n
  induction n with
  | zero =>
      intro s hl
      have hnil : s = [] := List.eq_nil_of_length_eq_zero (Nat.le_zero.mp hl)
      subst hnil
      rfl
  | succ n ih =>
      intro s hl
      cases s with
      | nil => simp [replaceAllAux_nil_arg]
      | cons x xs =>
          have hl' : xs.length ≤ n := by
            simp only [List.length_cons] at hl
            omega
          by_cases hx : c = x
          · subst hx
            rw [replaceAllAux, if_pos ⟨by simp, by simp [isPrefixL]⟩]
            have hd : (c :: xs).drop ([c] : Str).length = xs := rfl
            rw [hd, ih xs hl']
            simp [List.filter_cons]
          · have hcond : ¬((([c] : Str) ≠ []) ∧ isPrefixL [c] (x :: xs) = true) := by
              rintro ⟨-, hpre⟩
              simp only [isPrefixL, Bool.and_eq_true, decide_eq_true_eq] at hpre
              exact hx hpre.1
            rw [replaceAllAux, if_neg hcond, ih xs hl']
            simp [List.filter_cons, Ne.symm hx]

/-- `re.sub` with a one-character pattern filters that character out. -/
theorem replaceAll_single (c : Char) (s : Str) :
    replaceAll [c] s = s.filter (fun x => !(decide (x = c))) :=
  replaceAllAux_single c s.length s (Nat.le_refl _)

/-- Shapes allowed by the integer guard of line 78: all digits, or a minus
sign followed by digits. -/
theorem isIntGuard_cases (s : Str) (h : isIntGuard s = true) :
    (∃ c cs, s = c :: cs ∧ isDigitC c = true ∧ ∀ x ∈ cs, isDigitC x = true) ∨
      (∃ cs, s = '-' :: cs ∧ cs ≠ [] ∧ ∀ x ∈ cs, isDigitC x = true) := by
  simp only [isIntGuard, Bool.or_eq_true, Bool.and_eq_true] at h
  rcases h with h | ⟨hpre, hrest⟩
  · left
    cases s with
    | nil => exact absurd h (by decide)
    | cons c cs =>
        simp only [isDigits, List.all_cons, Bool.and_eq_true, List.all_eq_true] at h
        exact ⟨c, cs, rfl, h.2.1, h.2.2⟩
  · right
    cases s with
    | nil => exact absurd hpre (by decide)
    | cons c cs =>
        simp only [isPrefixL, Bool.and_eq_true, decide_eq_true_eq] at hpre
        obtain ⟨hc, -⟩ := hpre
        subst hc
        simp only [List.drop_succ_cons, List.drop_zero] at hrest
        simp only [isDigits, Bool.and_eq_true, List.all_eq_true] at hrest
        refine ⟨cs, rfl, ?_, hrest.2⟩
        intro hnil
        rw [hnil] at hrest
        exact absurd hrest.1 (by decide)

/-- No character of an integer literal is a comparator character. -/
theorem isIntGuard_no_op_chars (s : Str) (h : isIntGuard s = true) :
    ∀ x ∈ s, isOpChar x = false := by
  rcases isIntGuard_cases s h with ⟨c, cs, rfl, hc, hcs⟩ | ⟨cs, rfl, -, hcs⟩
  · intro x hx
    rcases List.mem_cons.mp hx with rfl | hx
    · obtain ⟨n1, n2, n3, -⟩ := isDigitC_ne_special x hc
      exact isOpChar_eq_false x n1 n2 n3
    · obtain ⟨n1, n2, n3, -⟩ := isDigitC_ne_special x (hcs x hx)
      exact isOpChar_eq_false x n1 n2 n3
  · intro x hx
    rcases List.mem_cons.mp hx with rfl | hx
    · decide
    · obtain ⟨n1, n2, n3, -⟩ := isDigitC_ne_special x (hcs x hx)
      exact isOpChar_eq_false x n1 n2 n3

/-- An integer literal is classified as neither boolean token. -/
theorem isIntGuard_not_bool (s : Str) (h : isIntGuard s = true) :
    ¬(lowerStr s = 't' :: ['r', 'u', 'e'] ∨ lowerStr s = 'f' :: ['a', 'l', 's', 'e']) := by
  rcases isIntGuard_cases s h with ⟨c, cs, rfl, hc, -⟩ | ⟨cs, rfl, -, -⟩
  · obtain ⟨-, -, -, -, nt, nf⟩ := isDigitC_ne_special c hc
    have hlow : Char.toLower c = c := toLower_of_isDigitC c hc
    rintro (habs | habs) <;>
      (simp only [lowerStr, List.map_cons, List.cons.injEq, hlow] at habs)
    · exact nt habs.1
    · exact nf habs.1
  · rintro (habs | habs) <;>
      (simp only [lowerStr, List.map_cons, List.cons.injEq] at habs)
    · exact absurd habs.1 (by decide)
    · exact absurd habs.1 (by decide)

/-- Parsing a raw cell whose operator scan finds `op`, when the remainder
left by the substitution is an integer literal: the parser returns the
operator together with the parsed integer. -/
theorem parse_cell_value_found_int (value op s : Str)
    (hfind : findOpRun value = some op) (hop : (opsLookup op).isSome = true)
    (hrem : replaceAll op value = s) (hs : isIntGuard s = true) :
    parse_cell_value value = .ok (some op, .int (strToInt s)) := by
  simp only [parse_cell_value, hfind, hop, if_true, hrem]
  rw [if_neg (isIntGuard_not_bool s hs), if_pos hs]

/-- Claim C8: for all cells of the form `op` followed by an integer literal,
where `op` is one of the five recognised operator tokens and the literal may
carry a leading minus sign, the cell value parser returns exactly the pair of
that operator and that integer, the integer parsed in base 10 with the sign
applied (`strToInt`). -/
theorem c8_operator_integer_cells (op s : Str) (k : OpKind)
    (hop : opsLookup op = some k) (hs : isIntGuard s = true) :
    parse_cell_value (op ++ s) = .ok (some op, .int (strToInt s)) := by
  have hop' : (opsLookup op).isSome = true := by rw [hop]; rfl
  have hno : ∀ x ∈ s, isOpChar x = false := isIntGuard_no_op_chars s hs
  have hshape : ∃ c₀ cs₀, s = c₀ :: cs₀ ∧ isOpChar c₀ = false := by
    rcases isIntGuard_cases s hs with ⟨c₀, cs₀, rfl, hc₀, -⟩ | ⟨cs₀, rfl, -, -⟩
    · obtain ⟨n1, n2, n3, -⟩ := isDigitC_ne_special c₀ hc₀
      exact ⟨c₀, cs₀, rfl, isOpChar_eq_false c₀ n1 n2 n3⟩
    · exact ⟨'-', cs₀, rfl, by decide⟩
  obtain ⟨c₀, cs₀, hseq, hc₀⟩ := hshape
  have hneGt : ∀ x ∈ s, x ≠ '>' := fun x hx heq =>
    absurd (hno x hx) (by rw [heq]; decide)
  have hneLt : ∀ x ∈ s, x ≠ '<' := fun x hx heq =>
    absurd (hno x hx) (by rw [heq]; decide)
  have hneEq : ∀ x ∈ s, x ≠ '=' := fun x hx heq =>
    absurd (hno x hx) (by rw [heq]; decide)
  rcases opsLookup_cases op k hop with ⟨rfl, -⟩ | ⟨rfl, -⟩ | ⟨rfl, -⟩ | ⟨rfl, -⟩ | ⟨rfl, -⟩
  · have hfind : findOpRun (['>'] ++ s) = some ['>'] := by
      rw [hseq]
      exact findOpRun_single_cons '>' c₀ cs₀ (by decide) hc₀
    exact parse_cell_value_found_int _ _ _ hfind hop' (replaceAll_cancel '>' [] s hneGt) hs
  · have hfind : findOpRun (['<'] ++ s) = some ['<'] := by
      rw [hseq]
      exact findOpRun_single_cons '<' c₀ cs₀ (by decide) hc₀
    exact parse_cell_value_found_int _ _ _ hfind hop' (replaceAll_cancel '<' [] s hneLt) hs
  · have hfind : findOpRun (['>', '='] ++ s) = some ['>', '='] :=
      findOpRun_pair '>' '=' s (by decide) (by decide)
    exact parse_cell_value_found_int _ _ _ hfind hop' (replaceAll_cancel '>' ['='] s hneGt) hs
  · have hfind : findOpRun (['<', '='] ++ s) = some ['<', '='] :=
      findOpRun_pair '<' '=' s (by decide) (by decide)
    exact parse_cell_value_found_int _ _ _ hfind hop' (replaceAll_cancel '<' ['='] s hneLt) hs
  · have hfind : findOpRun (['='] ++ s) = some ['='] := by
      rw [hseq]
      exact findOpRun_single_cons '=' c₀ cs₀ (by decide) hc₀
    exact parse_cell_value_found_int _ _ _ hfind hop' (replaceAll_cancel '=' [] s hneEq) hs

/-- Witness for claim C8 at the cell `>=-5`: the parser returns the pair
of `>=` and the integer `-5`. -/
theorem c8_operator_integer_cells_witness :
    parse_cell_value (['>', '='] ++ ['-', '5']) = .ok (some ['>', '='], .int (-5)) := by
  have h := c8_operator_integer_cells ['>', '='] ['-', '5'] OpKind.ge (by decide) (by decide)
  rw [h]
  decide

/-- The remainder as the spec words it ("remove exactly that operator
substring from raw"): delete only the single leftmost occurrence found by
the scan and keep every later character, later occurrences included, in
place.  Stated for comparison with `replaceAll`, the embedding of the
`re.sub` call the source actually performs. -/
def removeFirstOccurrenceSpec (pat : Str) : Str → Str
  | [] => []
  | c :: rest =>
      if pat ≠ [] ∧ isPrefixL pat (c :: rest) = true then (c :: rest).drop pat.length
      else c :: removeFirstOccurrenceSpec pat rest

/-- Counterexample to claim C2 at the raw cell `>1>`: the substitution the
source performs removes the later `>` as well (remainder `1`), while the
spec's remove-exactly-one-occurrence remainder would be `1>`; consequently
the parser accepts `>1>` as the integer condition `(>, 1)` instead of
classifying the remainder `1>`. -/
theorem c2_counterexample :
    replaceAll ['>'] ('>' :: ['1', '>']) = ['1'] ∧
      removeFirstOccurrenceSpec ['>'] ('>' :: ['1', '>']) = ['1', '>'] ∧
      replaceAll ['>'] ('>' :: ['1', '>']) ≠
        removeFirstOccurrenceSpec ['>'] ('>' :: ['1', '>']) ∧
      parse_cell_value ('>' :: ['1', '>']) = .ok (some ['>'], .int 1) := by
  refine ⟨by decide, by decide, by decide, by decide⟩

/-- Claim C2 as amended: the remainder classified by the parser is the raw
string with every leftmost non-overlapping occurrence of the matched
operator substring removed (Python `re.sub` with count 0), not only the one
occurrence found by the scan.  Witnessed on the family `>` ++ digits ++ `>`
++ digits, where both `>` characters are removed and the two digit runs are
classified as one merged integer. -/
theorem c2_sub_removes_every_occurrence (d₁ d₂ : Str) (h₁ : d₁ ≠ [])
    (hd₁ : ∀ x ∈ d₁, isDigitC x = true) (hd₂ : ∀ x ∈ d₂, isDigitC x = true) :
    parse_cell_value ('>' :: (d₁ ++ '>' :: d₂)) =
      .ok (some ['>'], .int (digitsToNat (d₁ ++ d₂))) := by
  obtain ⟨c₀, cs₀, rfl⟩ : ∃ c₀ cs₀, d₁ = c₀ :: cs₀ := by
    cases d₁ with
    | nil => exact absurd rfl h₁
    | cons c₀ cs₀ => exact ⟨c₀, cs₀, rfl⟩
  have hc₀ := hd₁ c₀ (by simp)
  obtain ⟨n1, n2, n3, n4, -⟩ := isDigitC_ne_special c₀ hc₀
  have hfind : findOpRun ('>' :: ((c₀ :: cs₀) ++ '>' :: d₂)) = some ['>'] :=
    findOpRun_single_cons '>' c₀ _ (by decide) (isOpChar_eq_false c₀ n1 n2 n3)
  have hp₁ : ∀ x ∈ c₀ :: cs₀, (fun x => !(decide (x = '>'))) x = true := by
    intro x hx
    obtain ⟨m1, -⟩ := isDigitC_ne_special x (hd₁ x hx)
    simp [m1]
  have hp₂ : ∀ x ∈ d₂, (fun x => !(decide (x = '>'))) x = true := by
    intro x hx
    obtain ⟨m1, -⟩ := isDigitC_ne_special x (hd₂ x hx)
    simp [m1]
  have hrem : replaceAll ['>'] ('>' :: ((c₀ :: cs₀) ++ '>' :: d₂)) = (c₀ :: cs₀) ++ d₂ := by
    rw [replaceAll_single]
    have e1 : List.filter (fun x => !decide (x = '>')) ('>' :: ((c₀ :: cs₀) ++ '>' :: d₂))
        = List.filter (fun x => !decide (x = '>')) ((c₀ :: cs₀) ++ '>' :: d₂) := by
      rw [List.filter_cons]
      simp
    have e2 : List.filter (fun x => !decide (x = '>')) ('>' :: d₂)
        = List.filter (fun x => !decide (x = '>')) d₂ := by
      rw [List.filter_cons]
      simp
    rw [e1, List.filter_append, e2, List.filter_eq_self.mpr hp₁, List.filter_eq_self.mpr hp₂]
  have hguard : isIntGuard ((c₀ :: cs₀) ++ d₂) = true := by
    have hall : ((c₀ :: cs₀) ++ d₂).all isDigitC = true :=
      List.all_eq_true.mpr (fun x hx => by
        rcases List.mem_append.mp hx with hx | hx
        exacts [hd₁ x hx, hd₂ x hx])
    simp only [isIntGuard, isDigits, hall, Bool.and_true, Bool.or_eq_true]
    left
    simp
  have h := parse_cell_value_found_int _ _ _ hfind (by decide) hrem hguard
  rw [h]
  have hsign : strToInt ((c₀ :: cs₀) ++ d₂) = (digitsToNat ((c₀ :: cs₀) ++ d₂) : Int) := by
    rw [strToInt, if_neg]
    intro habs
    simp only [List.cons_append, isPrefixL, Bool.and_eq_true, decide_eq_true_eq] at habs
    exact n4 habs.1.symm
  rw [hsign]

/-- Witness for the amended claim C2 at the raw cell `>1>`: both `>`
characters are removed and the remainder `1` is classified as the integer
`1`. -/
theorem c2_sub_removes_every_occurrence_witness :
    parse_cell_value ('>' :: (['1'] ++ '>' :: [])) = .ok (some ['>'], .int 1) := by
  have h := c2_sub_removes_every_occurrence ['1'] [] (by decide) (by decide) (by decide)
  rw [h]
  decide

/-! Claim theorems about the matrix builder and the evaluation engine. -/

/-- Counterexample to claim C3: supplying an explicitly empty row sequence to
the builder does not succeed with a zero-row matrix; it raises the
missing-data error, because the loaded-check `len(self._csv_data) != 0`
cannot distinguish supplied-empty from never-supplied. -/
theorem c3_counterexample : load_csv_data ([] : List RawRow) = .error .missingData := rfl

/-- Claim C3 as amended: building from an explicitly supplied empty row
sequence fails with the missing-data error, and evaluating against a
zero-row matrix likewise raises missing-data rather than reporting no
match. -/
theorem c3_empty_rows_rejected :
    load_csv_data ([] : List RawRow) = .error .missingData ∧
      ∀ d : DDH, evaluate [] d = (.error .missingData, d) := by
  refine ⟨rfl, fun d => ?_⟩
  rw [evaluate, if_pos rfl]

/-- Counterexample to claim C1: the matrix holds two rows (`rowMatch1`,
`rowMatch2`) that would each fully match the predictor set `age = 20`, yet
evaluate raises missing-column for the preceding status-less row instead of
writing the first matching row's status and returning true. -/
theorem c1_counterexample :
    evalRow rowMatch1 ddhAge20 (keysD ddhAge20) = .ok true ∧
      evalRow rowMatch2 ddhAge20 (keysD ddhAge20) = .ok true ∧
      evaluate [rowNoStatus, rowMatch1, rowMatch2] ddhAge20 =
        (.error (.missingColumn rowNoStatus), ddhAge20) := by
  refine ⟨by decide, by decide, by decide⟩

/-- Claim C1 as amended: when every row before the first fully matching row
has a `status` entry and scans to a clean mismatch, evaluate writes the first
matching row's `status` literal into the predictor set and returns true
immediately, regardless of the rows behind it — in particular never the
status of a later matching row. -/
theorem c1_first_full_match_wins (d : DDH) (p rest : List Row) (r : Row) (sc : Condition)
    (hp : ∀ row ∈ p, (lookupRow status_column row).isSome = true ∧
      evalRow row (clearStatus d) (keysD (clearStatus d)) = .ok false)
    (hr : lookupRow status_column r = some sc)
    (hm : evalRow r (clearStatus d) (keysD (clearStatus d)) = .ok true) :
    evaluate (p ++ r :: rest) d = (.ok true, setKey status_column sc.2 (clearStatus d)) := by
  have hne : p ++ r :: rest ≠ [] := by
    intro habs
    rcases List.append_eq_nil.mp habs with ⟨-, h2⟩
    exact List.cons_ne_nil r rest h2
  rw [evaluate, if_neg hne, evalRows_skip (clearStatus d) p (r :: rest) hp]
  simp only [evalRows, hr, hm]

/-- Witness for the amended claim C1: with a clean mismatching row in front,
the first matching row `rowMatch1` supplies the status, and the later
matching row `rowMatch2` is never consulted. -/
theorem c1_first_full_match_wins_witness :
    evaluate ([rowNoMatch] ++ rowMatch1 :: [rowMatch2]) ddhAge20 =
      (.ok true, setKey status_column (Value.str ['a', '1']) (clearStatus ddhAge20)) :=
  c1_first_full_match_wins ddhAge20 [rowNoMatch] [rowMatch2] rowMatch1
    (none, Value.str ['a', '1']) (by decide) (by decide) (by decide)

/-- Counterexample to claim C4: the second row lacks a `status` entry, yet
evaluate returns true because the first row fully matches — the missing
`status` of the later row is not reported, contradicting "regardless of
whether an earlier row would match". -/
theorem c4_counterexample :
    lookupRow status_column rowNoStatus = none ∧
      evaluate [rowMatch1, rowNoStatus] ddhAge20 =
        (.ok true, [(ageKey, Value.int 20), (status_column, Value.str ['a', '1'])]) := by
  refine ⟨by decide, by decide⟩

/-- Claim C4 as amended: the `status` check for a row happens before any
condition of that row is looked at, so when every row before a status-less
row has `status` and scans to a clean mismatch, evaluate raises
missing-column identifying that row (whatever the row's conditions are, and
whatever rows follow); but a fully matching earlier row returns true without
the later row's missing `status` ever being reported. -/
theorem c4_missing_status_detected_lazily (d : DDH) (p rest : List Row) (r : Row)
    (hp : ∀ row ∈ p, (lookupRow status_column row).isSome = true ∧
      evalRow row (clearStatus d) (keysD (clearStatus d)) = .ok false)
    (hr : lookupRow status_column r = none) :
    evaluate (p ++ r :: rest) d = (.error (.missingColumn r), clearStatus d) := by
  have hne : p ++ r :: rest ≠ [] := by
    intro habs
    rcases List.append_eq_nil.mp habs with ⟨-, h2⟩
    exact List.cons_ne_nil r rest h2
  rw [evaluate, if_neg hne, evalRows_skip (clearStatus d) p (r :: rest) hp]
  simp only [evalRows, hr]

/-- Witness for the amended claim C4: behind a cleanly mismatching row, the
status-less row is reported before any of its conditions is checked. -/
theorem c4_missing_status_detected_lazily_witness :
    evaluate ([rowNoMatch] ++ rowNoStatus :: []) ddhAge20 =
      (.error (.missingColumn rowNoStatus), clearStatus ddhAge20) :=
  c4_missing_status_detected_lazily ddhAge20 [rowNoMatch] [] rowNoStatus
    (by decide) (by decide)

/-- Claim C5: when the first checked predictor's condition compares false
(the condition exists, carries a known operator, and the comparison cleanly
yields false), the row scan returns no-match immediately, whatever the
remaining predictor keys are — later columns of the row are never looked up,
so no error can be raised for them, even if they are missing or
malformed. -/
theorem c5_first_mismatch_short_circuits (row : Row) (d : DDH) (k : Key) (ks : List Key)
    (opStr : Str) (opk : OpKind) (v : Value)
    (hcond : lookupRow k row = some (some opStr, v))
    (hop : opsLookup opStr = some opk)
    (hcmp : applyOp opk ((lookupD k d).getD (.str [])) v = .ok false) :
    evalRow row d (k :: ks) = .ok false := by
  obtain ⟨c, cs, rfl⟩ : ∃ c cs, opStr = c :: cs := by
    cases opStr with
    | nil =>
        rw [show opsLookup ([] : Str) = none from rfl] at hop
        exact Option.noConfusion hop
    | cons c cs => exact ⟨c, cs, rfl⟩
  simp only [evalRow, hcond, hop, hcmp]

/-- Witness for claim C5: in `rowNoMatch` the first predictor `age = 20`
fails the condition `> 100`, and the scan stops with no-match although the
second predictor key `country` has no column in the row at all. -/
theorem c5_first_mismatch_short_circuits_witness :
    evalRow rowNoMatch ddhAgeCountry (ageKey :: countryKey :: []) = .ok false ∧
      lookupRow countryKey rowNoMatch = none := by
  constructor
  · exact c5_first_mismatch_short_circuits rowNoMatch ddhAgeCountry ageKey [countryKey]
      ['>'] OpKind.gt (.int 100) (by decide) (by decide) (by decide)
  · decide

/-- Claim C6: evaluate deletes any pre-existing `status` entry first, so when
the same predictor set is evaluated twice against the same matrix and the
second evaluation finds no match (returns false), `status` is absent from the
final predictor set — the first run's outcome does not leak through. -/
theorem c6_second_no_match_leaves_status_absent (m : List Row) (d d₁ d₂ : DDH)
    (r₁ : Except EvalErr Bool)
    (_h1 : evaluate m d = (r₁, d₁))
    (h2 : evaluate m d₁ = (.ok false, d₂)) :
    lookupD status_column d₂ = none := by
  by_cases hm : m = []
  · rw [evaluate, if_pos hm] at h2
    have hfst := congrArg Prod.fst h2
    exact Except.noConfusion hfst
  · rw [evaluate, if_neg hm] at h2
    have hstate := evalRows_ok_false m (clearStatus d₁) d₂ h2
    rw [hstate]
    exact lookupD_clearStatus d₁

/-- Witness for claim C6: a stale `status` entry, two no-match evaluations of
the one-row table `age > 100` with `age = 20`; after the second run `status`
is absent. -/
theorem c6_second_no_match_leaves_status_absent_witness :
    lookupD status_column [(ageKey, Value.int 20)] = none :=
  c6_second_no_match_leaves_status_absent [rowNoMatch] ddhAgeStale
    [(ageKey, Value.int 20)] [(ageKey, Value.int 20)] (.ok false)
    (by decide) (by decide)

/-- Claim C7: evaluating an empty predictor set against a non-empty matrix
whose first row carries a `status` entry is a vacuous match on row 1: the
inner predictor loop runs over no keys, so no condition of the row is ever
checked (the row's conditions are entirely unconstrained here), the first
row's `status` literal is written, and evaluate returns true. -/
theorem c7_empty_predictors_match_first_row (r : Row) (rest : List Row) (sc : Condition)
    (hr : lookupRow status_column r = some sc) :
    evaluate (r :: rest) ([] : DDH) = (.ok true, [(status_column, sc.2)]) := by
  rw [evaluate, if_neg (List.cons_ne_nil r rest)]
  show evalRows (clearStatus []) (r :: rest) = _
  simp only [clearStatus, containsKey, Bool.false_eq_true, if_false, evalRows, hr, keysD,
    List.map_nil, evalRow, setKey]

/-- Witness for claim C7: the empty predictor set against the one-row matrix
`rowMatch1` matches vacuously and receives status `a1`. -/
theorem c7_empty_predictors_match_first_row_witness :
    evaluate (rowMatch1 :: []) ([] : DDH) = (.ok true, [(status_column, Value.str ['a', '1'])]) :=
  c7_empty_predictors_match_first_row rowMatch1 [] (none, Value.str ['a', '1']) (by decide)

/-- Claim C9: an evaluation — whatever its result, including errors — leaves
the value of every predictor key other than `status` unchanged in the
predictor set.  (The decision matrix is an unmodified input of the embedding:
source `evaluate` contains no assignment into it, so only the container frame
is stated.) -/
theorem c9_only_status_mutated (m : List Row) (d : DDH) (k : Key)
    (hk : k ≠ status_column) :
    lookupD k (evaluate m d).2 = lookupD k d := by
  by_cases hm : m = []
  · rw [evaluate, if_pos hm]
  · rw [evaluate, if_neg hm]
    rw [lookupD_evalRows_ne m (clearStatus d) k hk]
    exact lookupD_clearStatus_ne k d hk

/-- Witness for claim C9: the `age` entry survives a matching evaluation
unchanged. -/
theorem c9_only_status_mutated_witness :
    lookupD ageKey (evaluate [rowMatch1] ddhAge20).2 = lookupD ageKey ddhAge20 :=
  c9_only_status_mutated [rowMatch1] ddhAge20 ageKey (by decide)

/-- Claim C10: when evaluate raises any error other than the missing-data
precondition failure, the `status` entry that was present on entry has
already been deleted and is not restored — the caller observes the predictor
set mutated by the failed evaluation. -/
theorem c10_failed_evaluation_mutates (m : List Row) (d d' : DDH) (v : Value) (e : EvalErr)
    (hv : lookupD status_column d = some v)
    (he : evaluate m d = (.error e, d'))
    (hne : e ≠ .missingData) :
    lookupD status_column d' = none ∧ d' ≠ d := by
  have hstat : lookupD status_column d' = none := by
    by_cases hm : m = []
    · rw [evaluate, if_pos hm] at he
      have hfst := congrArg Prod.fst he
      injection hfst with hinj
      exact absurd hinj.symm hne
    · rw [evaluate, if_neg hm] at he
      have hstate := evalRows_error m (clearStatus d) d' e he
      rw [hstate]
      exact lookupD_clearStatus d
  refine ⟨hstat, fun habs => ?_⟩
  rw [habs, hv] at hstat
  exact Option.noConfusion hstat

/-- Witness for claim C10: a stale `status` entry and a status-less row; the
missing-column error propagates with the stale entry already deleted. -/
theorem c10_failed_evaluation_mutates_witness :
    lookupD status_column [(ageKey, Value.int 20)] = none ∧
      ([(ageKey, Value.int 20)] : DDH) ≠ ddhAgeStale :=
  c10_failed_evaluation_mutates [rowNoStatus] ddhAgeStale [(ageKey, Value.int 20)]
    (Value.str ['o', 'l', 'd']) (.missingColumn rowNoStatus)
    (by decide) (by decide) (by decide)

end DT
